import Mathlib

/-!
Verification of the schema-inference / schema-diff core of
`schema_inference_agent.py`.

The two algorithms under study operate on parsed JSON values and on
schema documents, both of which are Python dictionaries / lists at
runtime.  We embed them shallowly:

* `JValue` is the universal runtime value: the six JSON kinds plus an
  `unsupported` constructor standing for any Python runtime value whose
  kind lies outside the JSON model (it records the class name that
  `type(value).__name__` would report).  Python floats are modelled by
  rationals: the only operations the source performs on floats are kind
  dispatch and equality, and equality of (non-NaN) doubles coincides
  with equality of the rationals they denote.
* Python dictionaries are association lists in insertion order
  (`List (String × JValue)`); `dict.get` is `getField`.
* Python functions that can raise return `Except String _`; an
  `Except.error` is a raised exception propagating to the caller.
* `json.dumps`/`json.loads` round-trip a tree unchanged, so the
  serialisation step of `_infer_json_schema` is modelled as the
  identity on the tree.
-/

inductive JValue where
  | null : JValue
  | bool (b : Bool) : JValue
  | int (n : Int) : JValue
  | float (q : Rat) : JValue
  | str (s : String) : JValue
  | arr (xs : List JValue) : JValue
  | obj (fields : List (String × JValue)) : JValue
  | unsupported (tyName : String) : JValue

mutual
/-- Structural (Python `==`) equality on runtime values. -/
def jeq : JValue → JValue → Bool
  | .null, .null => true
  | .bool a, .bool b => a == b
  | .int a, .int b => a == b
  | .float a, .float b => a == b
  | .str a, .str b => a == b
  | .arr a, .arr b => jeqList a b
  | .obj a, .obj b => jeqFields a b
  | .unsupported a, .unsupported b => a == b
  | _, _ => false

def jeqList : List JValue → List JValue → Bool
  | [], [] => true
  | x :: xs, y :: ys => jeq x y && jeqList xs ys
  | _, _ => false

def jeqFields : List (String × JValue) → List (String × JValue) → Bool
  | [], [] => true
  | (k, v) :: xs, (k2, v2) :: ys => k == k2 && jeq v v2 && jeqFields xs ys
  | _, _ => false
end

mutual
theorem jeq_refl : (a : JValue) → jeq a a = true
  | .null => rfl
  | .bool b => by simp [jeq]
  | .int n => by simp [jeq]
  | .float q => by simp [jeq]
  | .str s => by simp [jeq]
  | .arr xs => by rw [jeq]; exact jeqList_refl xs
  | .obj fs => by rw [jeq]; exact jeqFields_refl fs
  | .unsupported n => by simp [jeq]

theorem jeqList_refl : (xs : List JValue) → jeqList xs xs = true
  | [] => rfl
  | x :: xs => by
      rw [jeqList]
      exact (Bool.and_eq_true _ _).mpr ⟨jeq_refl x, jeqList_refl xs⟩

theorem jeqFields_refl : (fs : List (String × JValue)) → jeqFields fs fs = true
  | [] => rfl
  | (k, v) :: fs => by
      rw [jeqFields]
      simp only [Bool.and_eq_true]
      exact ⟨⟨by simp, jeq_refl v⟩, jeqFields_refl fs⟩
end

mutual
theorem jeq_sound : (a b : JValue) → jeq a b = true → a = b
  | .null, b, h => by cases b <;> simp [jeq] at h ⊢
  | .bool a, b, h => by cases b <;> simp [jeq] at h ⊢; exact h
  | .int a, b, h => by cases b <;> simp [jeq] at h ⊢; exact h
  | .float a, b, h => by cases b <;> simp [jeq] at h ⊢; exact h
  | .str a, b, h => by cases b <;> simp [jeq] at h ⊢; exact h
  | .arr xs, .arr ys, h => by
      rw [jeq] at h
      rw [jeqList_sound xs ys h]
  | .arr xs, .null, h => by simp [jeq] at h
  | .arr xs, .bool _, h => by simp [jeq] at h
  | .arr xs, .int _, h => by simp [jeq] at h
  | .arr xs, .float _, h => by simp [jeq] at h
  | .arr xs, .str _, h => by simp [jeq] at h
  | .arr xs, .obj _, h => by simp [jeq] at h
  | .arr xs, .unsupported _, h => by simp [jeq] at h
  | .obj fs, .obj gs, h => by
      rw [jeq] at h
      rw [jeqFields_sound fs gs h]
  | .obj fs, .null, h => by simp [jeq] at h
  | .obj fs, .bool _, h => by simp [jeq] at h
  | .obj fs, .int _, h => by simp [jeq] at h
  | .obj fs, .float _, h => by simp [jeq] at h
  | .obj fs, .str _, h => by simp [jeq] at h
  | .obj fs, .arr _, h => by simp [jeq] at h
  | .obj fs, .unsupported _, h => by simp [jeq] at h
  | .unsupported a, b, h => by cases b <;> simp [jeq] at h ⊢; exact h

theorem jeqList_sound : (xs ys : List JValue) → jeqList xs ys = true → xs = ys
  | [], [], _ => rfl
  | x :: xs, y :: ys, h => by
      rw [jeqList] at h
      rcases (Bool.and_eq_true _ _).mp h with ⟨h1, h2⟩
      rw [jeq_sound x y h1, jeqList_sound xs ys h2]
  | [], _ :: _, h => by simp [jeqList] at h
  | _ :: _, [], h => by simp [jeqList] at h

theorem jeqFields_sound :
    (xs ys : List (String × JValue)) → jeqFields xs ys = true → xs = ys
  | [], [], _ => rfl
  | (k, v) :: xs, (k2, v2) :: ys, h => by
      rw [jeqFields] at h
      rcases (Bool.and_eq_true _ _).mp h with ⟨h12, h3⟩
      rcases (Bool.and_eq_true _ _).mp h12 with ⟨h1, h2⟩
      have hk : k = k2 := by simpa using h1
      rw [hk, jeq_sound v v2 h2, jeqFields_sound xs ys h3]
  | [], _ :: _, h => by simp [jeqFields] at h
  | _ :: _, [], h => by simp [jeqFields] at h
end

instance : DecidableEq JValue := fun a b =>
  if h : jeq a b = true then .isTrue (jeq_sound a b h)
  else .isFalse (fun he => h (he ▸ jeq_refl a))

instance : BEq JValue := ⟨jeq⟩

instance : LawfulBEq JValue where
  eq_of_beq h := jeq_sound _ _ h
  rfl := jeq_refl _

instance : DecidableEq (Except String JValue) := fun a b =>
  match a, b with
  | .ok x, .ok y =>
      if h : x = y then .isTrue (by rw [h]) else .isFalse (by simp [h])
  | .error x, .error y =>
      if h : x = y then .isTrue (by rw [h]) else .isFalse (by simp [h])
  | .ok _, .error _ => .isFalse (by simp)
  | .error _, .ok _ => .isFalse (by simp)

/-- `type(value).__name__` on a runtime value. -/
def pyTypeName : JValue → String
  | .null => "NoneType"
  | .bool _ => "bool"
  | .int _ => "int"
  | .float _ => "float"
  | .str _ => "str"
  | .arr _ => "list"
  | .obj _ => "dict"
  | .unsupported n => n

/-- `isinstance(x, (int, float))`: Python booleans are instances of
`int`, so they pass this check. -/
def isNumberInstance : JValue → Bool
  | .int _ => true
  | .float _ => true
  | .bool _ => true
  | _ => false

/-- The `type_mapping` table of `_get_json_type`. -/
def type_mapping : List (String × String) :=
  [("str", "string"), ("int", "integer"), ("float", "number"),
   ("bool", "boolean"), ("NoneType", "null"), ("list", "array"),
   ("dict", "object")]

/-- `_get_json_type`: convert Python type names to JSON schema types,
defaulting to `"string"`. -/
def _get_json_type (python_type : String) : String :=
  ((type_mapping.lookup python_type).getD "string")

/-- Python `str.lower()`.  The field names compared case-insensitively
by the source are ASCII, so ASCII case folding suffices. -/
def pyLower (s : String) : String := ⟨s.data.map Char.toLower⟩

/-- Python `c in s` for a one-character pattern: membership of the
character in the string. -/
def containsChar (s : String) (c : Char) : Bool := s.data.contains c

/-- A token of one of the fixed date regexes: a digit class or a
literal character. -/
inductive PatTok where
  | digit : PatTok
  | lit (c : Char) : PatTok

/-- `re.match`: the pattern must match a prefix of the string
(anchored at the start only). -/
def reMatch : List PatTok → List Char → Bool
  | [], _ => true
  | .digit :: _, [] => false
  | .lit _ :: _, [] => false
  | .digit :: ps, c :: cs => c.isDigit && reMatch ps cs
  | .lit l :: ps, c :: cs => (c == l) && reMatch ps cs

/-- The three `date_patterns` of `_is_date_format`:
`YYYY-MM-DD`, `MM/DD/YYYY`, `DD-MM-YYYY`. -/
def date_patterns : List (List PatTok) :=
  [[.digit, .digit, .digit, .digit, .lit '-', .digit, .digit, .lit '-',
    .digit, .digit],
   [.digit, .digit, .lit '/', .digit, .digit, .lit '/', .digit, .digit,
    .digit, .digit],
   [.digit, .digit, .lit '-', .digit, .digit, .lit '-', .digit, .digit,
    .digit, .digit]]

/-- `_is_date_format`: check if the string starts with one of the
fixed date patterns. -/
def _is_date_format (value : String) : Bool :=
  date_patterns.any (fun p => reMatch p value.data)

mutual
/-- The inner `infer_type(value, field_name="")` of
`_infer_json_schema`.  Raised `ValueError`s are `Except.error` values
carrying `str(e)`. -/
def infer_type : JValue → String → Except String JValue
  | .obj fs, _ => do
      let props ← infer_props fs
      pure (.obj [("type", .str "object"),
                  ("properties", .obj props),
                  ("required", .arr (fs.map (fun kv => JValue.str kv.1)))])
  | .arr [], _ => pure (.obj [("type", .str "array"), ("items", .obj [])])
  | .arr (x :: xs), _ =>
      -- `types = {type(item).__name__ for item in value}; if len(types) > 1`
      if (((x :: xs).map pyTypeName).dedup).length > 1 then
        pure (.obj [("type", .str "array"),
                    ("items", .obj [("oneOf",
                      .arr ((x :: xs).map (fun item =>
                        .obj [("type", .str (_get_json_type (pyTypeName item)))])))])])
      else do
        let item_schema ← infer_type x ""
        -- `all(isinstance(x, (int, float)) for x in value)`
        if (x :: xs).all isNumberInstance then
          pure (.obj [("type", .str "array"),
                      ("items", item_schema),
                      ("minItems", .int 1),
                      ("maxItems", .int 10),
                      -- `len(value) == len(set(value))`
                      ("uniqueItems", .bool ((x :: xs).length == ((x :: xs).dedup).length))])
        else
          pure (.obj [("type", .str "array"), ("items", item_schema)])
  | .str s, field_name =>
      if pyLower field_name == "email" || containsChar s '@' then
        pure (.obj [("type", .str "string"), ("format", .str "email")])
      else if pyLower field_name == "date" || _is_date_format s then
        pure (.obj [("type", .str "string"), ("format", .str "date")])
      else
        pure (.obj [("type", .str "string")])
  | .bool _, _ => pure (.obj [("type", .str "boolean")])
  | .int _, _ => pure (.obj [("type", .str "integer")])
  | .float _, _ => pure (.obj [("type", .str "number")])
  | .null, _ => pure (.obj [("type", .str "null")])
  | .unsupported n, _ =>
      .error ("Unsupported type: <class '" ++ n ++ "'>")

def infer_props : List (String × JValue) → Except String (List (String × JValue))
  | [] => pure []
  | (k, v) :: rest => do
      let s ← infer_type v k
      let tail ← infer_props rest
      pure ((k, s) :: tail)
end

/-- `dict.get(key)` on an association list (first binding wins). -/
def getField : List (String × JValue) → String → Option JValue
  | [], _ => none
  | (k, v) :: rest, key => if k == key then some v else getField rest key

/-- `dict[key] = value`: replace an existing binding in place, else
append a new one. -/
def setField (fields : List (String × JValue)) (key : String) (v : JValue) :
    List (String × JValue) :=
  if (getField fields key).isSome then
    fields.map (fun kv => if kv.1 == key then (kv.1, v) else kv)
  else
    fields ++ [(key, v)]

/-- `_infer_json_schema`: run `infer_type`, attach the `$schema` marker,
and serialise.  The enclosing `try/except` catches every raised
exception and turns it into an ordinary returned string
`"Error inferring schema: …"`, so this function itself never raises:
its result is always `Except.ok`. -/
def _infer_json_schema (data : JValue) : Except String JValue :=
  match infer_type data "" with
  | .ok schema =>
      .ok (match schema with
           | .obj fs => .obj (setField fs "$schema"
               (.str "http://json-schema.org/draft-07/schema#"))
           | other => other)
  | .error e => .ok (.str ("Error inferring schema: " ++ e))

/-- Field `k` of the schema that `infer_type v ""` returns, when
inference succeeds and returns a mapping. -/
def inferredField (v : JValue) (k : String) : Option JValue :=
  match infer_type v "" with
  | .ok (.obj fs) => getField fs k
  | _ => none

example : infer_type (.arr [.int 1, .int 2, .int 2]) "" =
    .ok (.obj [("type", .str "array"),
               ("items", .obj [("type", .str "integer")]),
               ("minItems", .int 1),
               ("maxItems", .int 10),
               ("uniqueItems", .bool false)]) := by decide

example : infer_type (.arr [.int 1, .float (5 / 2)]) "" =
    .ok (.obj [("type", .str "array"),
               ("items", .obj [("oneOf",
                 .arr [.obj [("type", .str "integer")],
                       .obj [("type", .str "number")]])])]) := by decide

example : infer_type (.bool true) "" = .ok (.obj [("type", .str "boolean")]) := by decide

example : infer_type (.str "2023-01-15") "" =
    .ok (.obj [("type", .str "string"), ("format", .str "date")]) := by decide

example : infer_type (.str "a@b.com") "" =
    .ok (.obj [("type", .str "string"), ("format", .str "email")]) := by decide

example : infer_type (.arr [.bool true, .bool false]) "" =
    .ok (.obj [("type", .str "array"),
               ("items", .obj [("type", .str "boolean")]),
               ("minItems", .int 1),
               ("maxItems", .int 10),
               ("uniqueItems", .bool true)]) := by decide

example : _infer_json_schema (.unsupported "set") =
    .ok (.str "Error inferring schema: Unsupported type: <class 'set'>") := by decide

/-- One Difference Record: the Python dict appended to `differences`,
with its keys in insertion order. -/
abbrev DiffRecord := List (String × JValue)

/-- A `dict.get(key)` result placed into a record (`None` is `null`). -/
def optJ (o : Option JValue) : JValue := o.getD .null

/-- `node.get("required", [])` as an element list.  Valid schema nodes
carry an array here; the totalising `[]` fallback covers the
non-mapping shapes on which the source itself would crash in `set()`. -/
def reqList (fs : List (String × JValue)) : List JValue :=
  match getField fs "required" with
  | some (.arr xs) => xs
  | _ => []

/-- `node.get("properties", {})` as a field list.  Valid schema nodes
carry a mapping here; the totalising `[]` fallback covers the
non-mapping shapes on which the source itself would crash in
`.keys()`. -/
def propsOf (fs : List (String × JValue)) : List (String × JValue) :=
  match getField fs "properties" with
  | some (.obj g) => g
  | _ => []

/-- `key in v` for a mapping `v` (key membership). -/
def hasKey (v : JValue) (k : String) : Bool :=
  match v with
  | .obj fs => (getField fs k).isSome
  | _ => false

/-- `v[k]` for a mapping `v`. -/
def jKey (v : JValue) (k : String) : Option JValue :=
  match v with
  | .obj fs => getField fs k
  | _ => none

theorem getField_sizeOf {fs : List (String × JValue)} {k : String} {v : JValue}
    (h : getField fs k = some v) : sizeOf v < sizeOf fs := by
  induction fs with
  | nil => simp [getField] at h
  | cons kv rest ih =>
      obtain ⟨k2, v2⟩ := kv
      rw [getField] at h
      by_cases hk : (k2 == k) = true
      · simp only [hk, if_true, Option.some.injEq] at h
        subst h
        simp_arith
      · simp only [hk, if_false, Bool.false_eq_true] at h
        have := ih h
        simp_arith
        omega

theorem propsOf_sizeOf (fs : List (String × JValue)) :
    sizeOf (propsOf fs) < sizeOf (JValue.obj fs) := by
  unfold propsOf
  cases h : getField fs "properties" with
  | none =>
      cases fs <;> simp_arith
  | some v =>
      have hv := getField_sizeOf h
      cases v <;> simp_arith at hv ⊢ <;> omega

mutual
/-- The inner `compare_recursive(inferred, expected, path)` of
`_compare_schemas`: it emits its Difference Records in the source's
append order (type, format, array constraints, required, property
recursion, mixed-type items), and does nothing unless both arguments
are mappings. -/
def compare_recursive (inferred expected : JValue) (path : String) :
    List DiffRecord :=
  match inferred, expected with
  | .obj fi, .obj fe =>
      -- `if inferred.get("type") != expected.get("type")`
      (if (getField fi "type") == (getField fe "type") then []
       else [[("path", .str path), ("issue", .str "type_mismatch"),
              ("inferred", optJ (getField fi "type")),
              ("expected", optJ (getField fe "type"))]])
      ++
      -- `if expected.get("type") == "string" and "format" in expected`
      (if (getField fe "type") == some (.str "string") then
         match getField fe "format" with
         | some efmt =>
             (match getField fi "format" with
              | none =>
                  [[("path", .str path), ("issue", .str "missing_format"),
                    ("expected_format", efmt)]]
              | some ifmt =>
                  if ifmt == efmt then []
                  else
                    [[("path", .str path), ("issue", .str "format_mismatch"),
                      ("inferred", ifmt), ("expected", efmt)]])
         | none => []
       else [])
      ++
      -- `if expected.get("type") == "array": for constraint in [...]`
      (if (getField fe "type") == some (.str "array") then
         ["minItems", "maxItems", "uniqueItems"].filterMap (fun c =>
           match getField fe c, getField fi c with
           | some ev, none =>
               some [("path", .str path),
                     ("issue", .str "missing_array_constraint"),
                     ("constraint", .str c), ("expected", ev)]
           | _, _ => none)
       else [])
      ++
      -- `if set(inferred.get("required", [])) != set(expected.get("required", []))`
      -- (set equality as mutual containment; the `missing` / `extra` set
      -- differences are value lists with duplicates removed)
      (if (reqList fi).all (fun x => (reqList fe).contains x)
          && (reqList fe).all (fun x => (reqList fi).contains x)
       then []
       else
         [[("path", .str path), ("issue", .str "required_fields_mismatch"),
           ("missing", .arr (((reqList fe).filter
              (fun x => !(reqList fi).contains x)).dedup)),
           ("extra", .arr (((reqList fi).filter
              (fun x => !(reqList fe).contains x)).dedup))]])
      ++
      -- `for prop in set(inferred_props.keys()) | set(expected_props.keys())`
      -- (the union is visited once per key; Python's set iteration order
      -- is unspecified, we fix inferred-keys-first order)
      compare_props (propsOf fi) (propsOf fe)
        (((propsOf fi).map Prod.fst ++ (propsOf fe).map Prod.fst).dedup) path
      ++
      -- `if expected.get("type") == "array" and "items" in expected:`
      --   `if "oneOf" in expected["items"]:`
      --     `if "oneOf" not in inferred.get("items", {}):`
      (if (getField fe "type") == some (.str "array") then
         match getField fe "items" with
         | some ei =>
             (match jKey ei "oneOf" with
              | some alts =>
                  if hasKey ((getField fi "items").getD (.obj [])) "oneOf"
                  then []
                  else
                    [[("path", .str (path ++ ".items")),
                      ("issue", .str "missing_mixed_types"),
                      ("expected", alts)]]
              | none => [])
         | none => []
       else [])
  | _, _ => []
termination_by (sizeOf inferred, 0)
decreasing_by
  simp_wf
  apply Prod.Lex.left
  have h1 := propsOf_sizeOf fi
  simp_arith at h1 ⊢
  omega

/-- The property-recursion loop of `compare_recursive`: one key of the
union at a time, in-both keys recurse, one-sided keys emit
`missing_property` / `extra_property`. -/
def compare_props (iProps eProps : List (String × JValue))
    (keys : List String) (path : String) : List DiffRecord :=
  match keys with
  | [] => []
  | k :: ks =>
      -- `new_path = f"{path}.{prop}" if path else prop`
      (match hi : getField iProps k, getField eProps k with
       | some vi, some ve =>
           compare_recursive vi ve (if path == "" then k else path ++ "." ++ k)
       | none, some ve =>
           [[("path", .str (if path == "" then k else path ++ "." ++ k)),
             ("issue", .str "missing_property"), ("expected", ve)]]
       | some vi, none =>
           [[("path", .str (if path == "" then k else path ++ "." ++ k)),
             ("issue", .str "extra_property"), ("inferred", vi)]]
       | none, none => [])
      ++ compare_props iProps eProps ks path
termination_by (sizeOf iProps, keys.length + 1)
decreasing_by
  · simp_wf
    apply Prod.Lex.left
    exact getField_sizeOf hi
  · simp_wf
    apply Prod.Lex.right
    omega
end

/-- The result dict of `_compare_schemas`. -/
structure CompareResult where
  passed : Bool
  differences : List DiffRecord
deriving DecidableEq

/-- `_compare_schemas(inferred_schema, expected_schema)`. -/
def _compare_schemas (inferred_schema expected_schema : JValue) :
    CompareResult :=
  let differences := compare_recursive inferred_schema expected_schema ""
  { passed := differences.length == 0, differences := differences }

/-- `hasKey` asks exactly whether `jKey` finds a binding. -/
theorem hasKey_eq_jKey_isSome (v : JValue) (k : String) :
    hasKey v k = (jKey v k).isSome := by
  cases v <;> rfl

mutual
/-- A valid Schema Node in the sense of the data model: a mapping with
distinct keys whose `required` field (if present) is an array of
strings, whose `properties` field (if present) is a mapping of valid
child nodes, and whose `items` field (if present) is a valid child
node. -/
def ValidNode : JValue → Bool
  | .obj fs =>
      ((fs.map Prod.fst).dedup.length == (fs.map Prod.fst).length)
      && (match getField fs "required" with
          | none => true
          | some (.arr xs) =>
              xs.all (fun x => match x with | .str _ => true | _ => false)
          | some _ => false)
      && (match hp : getField fs "properties" with
          | none => true
          | some (.obj pfs) => ValidProps pfs
          | some _ => false)
      && (match hit : getField fs "items" with
          | none => true
          | some it => ValidNode it)
  | _ => false
termination_by v => sizeOf v
decreasing_by
  · simp_wf
    have h1 := getField_sizeOf hp
    simp_arith at h1 ⊢
    omega
  · simp_wf
    have h1 := getField_sizeOf hit
    simp_arith at h1 ⊢
    omega

/-- All property child nodes are valid. -/
def ValidProps : List (String × JValue) → Bool
  | [] => true
  | (_, v) :: rest => ValidNode v && ValidProps rest
termination_by fs => sizeOf fs
decreasing_by
  all_goals simp_wf
  all_goals simp_arith
end

theorem getField_mem {fs : List (String × JValue)} {k : String} {v : JValue}
    (h : getField fs k = some v) : (k, v) ∈ fs := by
  induction fs with
  | nil => simp [getField] at h
  | cons kv rest ih =>
      obtain ⟨k2, v2⟩ := kv
      rw [getField] at h
      by_cases hk : (k2 == k) = true
      · simp only [hk, if_true, Option.some.injEq] at h
        subst h
        have : k2 = k := by simpa using hk
        subst this
        exact List.mem_cons_self _ _
      · simp only [hk, if_false, Bool.false_eq_true] at h
        exact List.mem_cons_of_mem _ (ih h)

/-- Python truthiness `bool(v)` on runtime values (objects of other
classes are truthy by default). -/
def pyTruthy : JValue → Bool
  | .null => false
  | .bool b => b
  | .int n => !(n == 0)
  | .float q => !(q == 0)
  | .str s => !(s == "")
  | .arr xs => !xs.isEmpty
  | .obj fs => !fs.isEmpty
  | .unsupported _ => true

/-- Outcome of one call to the external `jsonschema.validate` (an
external capability at the system boundary; the wrapper is verified
for every possible behaviour of it). -/
inductive ValidatorOutcome where
  | accept : ValidatorOutcome
  | validationError : ValidatorOutcome
  | otherError (msg : String) : ValidatorOutcome

/-- What `_validate_schema` returns: Python gives back `True`/`False`,
or an error-message string from the generic `except` branch. -/
inductive ValidateResult where
  | b (b : Bool) : ValidateResult
  | errMsg (s : String) : ValidateResult
deriving DecidableEq

/-- `_validate_schema(data)`: look up `data["schema"]` and
`data["data"]`, return `False` if either is missing or falsy, else
defer to the external validator (passed here as a parameter, so that
the theorems quantify over every possible validator behaviour). -/
def _validate_schema (validate : JValue → JValue → ValidatorOutcome)
    (data : List (String × JValue)) : ValidateResult :=
  -- `schema = data.get("schema"); instance = data.get("data")`
  -- `if not schema or not instance: return False`
  if !pyTruthy (optJ (getField data "schema"))
     || !pyTruthy (optJ (getField data "data")) then
    .b false
  else
    match validate (optJ (getField data "schema"))
                   (optJ (getField data "data")) with
    | .accept => .b true
    | .validationError => .b false
    | .otherError m => .errMsg ("Error validating schema: " ++ m)

theorem jval_sizeOf_pos (v : JValue) : 0 < sizeOf v := by
  cases v <;> simp_arith

theorem dedup_replicate_one {α} [DecidableEq α] (c : α) :
    ∀ n, (List.replicate (n + 1) c).dedup = [c] := by
  intro n
  induction n with
  | zero => simp
  | succ m ih =>
      rw [List.replicate_succ,
          List.dedup_cons_of_mem (List.mem_replicate.mpr ⟨by omega, rfl⟩), ih]

theorem map_eq_replicate_of_forall {α β} (f : α → β) (c : β) :
    ∀ (xs : List α), (∀ x ∈ xs, f x = c) →
      xs.map f = List.replicate xs.length c := by
  intro xs h
  induction xs with
  | nil => simp
  | cons a t ih =>
      rw [List.map_cons, List.length_cons, List.replicate_succ,
          h a (List.mem_cons_self a t), ih (fun x hx => h x (List.mem_cons_of_mem _ hx))]

theorem hom_types_dedup {x : JValue} {xs : List JValue}
    (h : ∀ y ∈ x :: xs, pyTypeName y = pyTypeName x) :
    ((x :: xs).map pyTypeName).dedup = [pyTypeName x] := by
  rw [map_eq_replicate_of_forall pyTypeName (pyTypeName x) _ h, List.length_cons]
  exact dedup_replicate_one (pyTypeName x) xs.length

theorem one_lt_length_of_two_mem {α} {l : List α} {a b : α}
    (ha : a ∈ l) (hb : b ∈ l) (hne : a ≠ b) : 1 < l.length := by
  match l with
  | [] => simp at ha
  | [c] =>
      simp at ha hb
      subst ha
      subst hb
      exact absurd rfl hne
  | c1 :: c2 :: t => simp_arith

/-- A homogeneous-kind array reaches the `item_schema` branch: the
mixed-kind test `len(types) > 1` is false. -/
theorem infer_type_hom_array (x : JValue) (xs' : List JValue) (isch : JValue)
    (hhom : ∀ y ∈ x :: xs', pyTypeName y = pyTypeName x)
    (hitem : infer_type x "" = .ok isch) :
    infer_type (.arr (x :: xs')) "" =
      (if (x :: xs').all isNumberInstance then
        .ok (.obj [("type", .str "array"), ("items", isch),
                   ("minItems", .int 1), ("maxItems", .int 10),
                   ("uniqueItems",
                    .bool ((x :: xs').length == ((x :: xs').dedup).length))])
      else .ok (.obj [("type", .str "array"), ("items", isch)])) := by
  rw [infer_type]
  rw [if_neg (by rw [hom_types_dedup hhom]; simp)]
  rw [hitem]
  rfl

/-- C7: for every string value, `infer_type` attaches at most one
format, by fixed precedence: `email` when the field name lowercases to
"email" or the string contains '@'; otherwise `date` when the field
name lowercases to "date" or the string starts with one of the three
date patterns; otherwise no `format` field. -/
theorem infer_string_format_trichotomy (s fn : String) :
    (infer_type (.str s) fn =
        .ok (.obj [("type", .str "string"), ("format", .str "email")])
      ↔ (pyLower fn = "email" ∨ containsChar s '@' = true)) ∧
    (infer_type (.str s) fn =
        .ok (.obj [("type", .str "string"), ("format", .str "date")])
      ↔ (¬(pyLower fn = "email" ∨ containsChar s '@' = true) ∧
         (pyLower fn = "date" ∨ _is_date_format s = true))) ∧
    (infer_type (.str s) fn = .ok (.obj [("type", .str "string")])
      ↔ (¬(pyLower fn = "email" ∨ containsChar s '@' = true) ∧
         ¬(pyLower fn = "date" ∨ _is_date_format s = true))) := by
  have hed : (JValue.obj [("type", JValue.str "string"), ("format", JValue.str "email")]) ≠
      (JValue.obj [("type", JValue.str "string"), ("format", JValue.str "date")]) := by decide
  have hep : (JValue.obj [("type", JValue.str "string"), ("format", JValue.str "email")]) ≠
      (JValue.obj [("type", JValue.str "string")]) := by decide
  have hdp : (JValue.obj [("type", JValue.str "string"), ("format", JValue.str "date")]) ≠
      (JValue.obj [("type", JValue.str "string")]) := by decide
  rw [infer_type]
  by_cases h1 : (pyLower fn == "email" || containsChar s '@') = true
  · rw [if_pos h1]
    have h1p : pyLower fn = "email" ∨ containsChar s '@' = true := by
      simpa using h1
    exact ⟨⟨fun _ => h1p, fun _ => rfl⟩,
           ⟨fun he => absurd (Except.ok.inj he) hed, fun hc => absurd h1p hc.1⟩,
           ⟨fun he => absurd (Except.ok.inj he) hep, fun hc => absurd h1p hc.1⟩⟩
  · rw [if_neg h1]
    have h1p : ¬(pyLower fn = "email" ∨ containsChar s '@' = true) := by
      simpa using h1
    by_cases h2 : (pyLower fn == "date" || _is_date_format s) = true
    · rw [if_pos h2]
      have h2p : pyLower fn = "date" ∨ _is_date_format s = true := by
        simpa using h2
      exact ⟨⟨fun he => absurd (Except.ok.inj he).symm hed, fun hc => absurd hc h1p⟩,
             ⟨fun _ => ⟨h1p, h2p⟩, fun _ => rfl⟩,
             ⟨fun he => absurd (Except.ok.inj he) hdp, fun hc => absurd h2p hc.2⟩⟩
    · rw [if_neg h2]
      have h2p : ¬(pyLower fn = "date" ∨ _is_date_format s = true) := by
        simpa using h2
      exact ⟨⟨fun he => absurd (Except.ok.inj he).symm hep, fun hc => absurd hc h1p⟩,
             ⟨fun he => absurd (Except.ok.inj he).symm hdp, fun hc => absurd hc.2 h2p⟩,
             ⟨fun _ => ⟨h1p, h2p⟩, fun _ => rfl⟩⟩

/-- C2 (counterexample): called on a value of unsupported runtime kind
(a Python `set`), `_infer_json_schema` does not surface a raised
error to its caller: it returns an ordinary `Except.ok` string result
carrying the caught message. -/
theorem infer_unsupported_returns_ok_string :
    _infer_json_schema (.unsupported "set") =
      .ok (.str "Error inferring schema: Unsupported type: <class 'set'>") := by
  decide

/-- C2 (amended): for a value of a runtime kind outside the JSON Value
model, the inner `infer_type` raises `ValueError("Unsupported type:
<class '…'>")`, and the enclosing `try/except` of `_infer_json_schema`
catches it, returning the string `"Error inferring schema: …"` to its
caller as an ordinary (non-raised) result. -/
theorem infer_unsupported_caught (n : String) :
    infer_type (.unsupported n) "" =
      .error ("Unsupported type: <class '" ++ n ++ "'>") ∧
    _infer_json_schema (.unsupported n) =
      .ok (.str ("Error inferring schema: " ++
                 ("Unsupported type: <class '" ++ n ++ "'>"))) := by
  constructor
  · rw [infer_type]
  · rw [_infer_json_schema, infer_type]

/-- Is the runtime value a Python mapping (`dict`)? -/
def isMapping : JValue → Bool
  | .obj _ => true
  | _ => false

/-- C9: when either side of a (sub)comparison is not a mapping,
`compare_recursive` skips that subtree without emitting a record; in
particular `_compare_schemas` on two non-mapping arguments passes with
an empty difference list. -/
theorem compare_skips_nonmapping (inferred expected : JValue) (path : String)
    (h : isMapping inferred = false ∨ isMapping expected = false) :
    compare_recursive inferred expected path = [] ∧
    _compare_schemas inferred expected = { passed := true, differences := [] } := by
  have key : ∀ p2 : String, compare_recursive inferred expected p2 = [] := by
    intro p2
    rw [compare_recursive.eq_def]
    rcases h with h | h
    · cases inferred <;> simp [isMapping] at h <;> cases expected <;> rfl
    · cases expected <;> simp [isMapping] at h <;> cases inferred <;> rfl
  refine ⟨key path, ?_⟩
  simp [_compare_schemas, key ""]

/-- C9 witness: two concrete non-mapping arguments. -/
theorem compare_skips_nonmapping_witness :
    compare_recursive (.int 3) (.str "x") "" = [] ∧
    _compare_schemas (.int 3) (.str "x") = { passed := true, differences := [] } :=
  compare_skips_nonmapping (.int 3) (.str "x") "" (Or.inl (by decide))

/-- C10: `_validate_schema` returns `False` whenever the supplied
schema or instance is falsy, for every possible behaviour of the
external validator (so the validator's verdict is never consulted);
and the falsy runtime values are exactly `null`, `false`, zero, the
empty string, the empty array, and the empty mapping. -/
theorem validate_falsy_returns_false
    (validate : JValue → JValue → ValidatorOutcome)
    (data : List (String × JValue))
    (h : pyTruthy (optJ (getField data "schema")) = false ∨
         pyTruthy (optJ (getField data "data")) = false) :
    _validate_schema validate data = .b false ∧
    ∀ v : JValue, pyTruthy v = false ↔
      (v = .null ∨ v = .bool false ∨ v = .int 0 ∨ v = .float 0 ∨
       v = .str "" ∨ v = .arr [] ∨ v = .obj []) := by
  constructor
  · rw [_validate_schema]
    rw [if_pos (by rcases h with h | h <;> simp [h])]
  · intro v
    cases v <;> simp [pyTruthy]

/-- C10 witness: validating the empty mapping `{}` reports failure even
against an accept-everything validator and a truthy schema. -/
theorem validate_falsy_returns_false_witness :
    _validate_schema (fun _ _ => .accept)
      [("schema", .obj [("type", .str "object")]), ("data", .obj [])] =
      .b false :=
  (validate_falsy_returns_false (fun _ _ => .accept)
    [("schema", .obj [("type", .str "object")]), ("data", .obj [])]
    (Or.inr (by decide))).1

/-- C1 (counterexample): an array mixing the two numeric kinds,
`[1, 2.5]`, takes the mixed-kind `oneOf` branch and carries no
`minItems` (nor the other constraints), contradicting the claim that
mixed integer/floating arrays receive them. -/
theorem infer_mixed_numeric_array_no_constraints :
    infer_type (.arr [.int 1, .float (5 / 2)]) "" =
      .ok (.obj [("type", .str "array"),
                 ("items", .obj [("oneOf",
                   .arr [.obj [("type", .str "integer")],
                         .obj [("type", .str "number")]])])]) ∧
    inferredField (.arr [.int 1, .float (5 / 2)]) "minItems" = none ∧
    inferredField (.arr [.int 1, .float (5 / 2)]) "maxItems" = none ∧
    inferredField (.arr [.int 1, .float (5 / 2)]) "uniqueItems" = none := by
  decide

/-- C1 (amended): for every non-empty array all of whose elements are
numeric of a single runtime kind (all integers, or all floats — not a
mix of the two, which takes the `oneOf` branch instead), the inferred
schema carries `minItems = 1`, `maxItems = 10`, and `uniqueItems` true
exactly when the count of distinct element values equals the element
count. -/
theorem infer_numeric_array_constraints (xs : List JValue)
    (hne : xs ≠ [])
    (hkind : (∀ x ∈ xs, ∃ n : Int, x = .int n) ∨
             (∀ x ∈ xs, ∃ q : Rat, x = .float q)) :
    inferredField (.arr xs) "minItems" = some (.int 1) ∧
    inferredField (.arr xs) "maxItems" = some (.int 10) ∧
    inferredField (.arr xs) "uniqueItems" =
      some (.bool (xs.length == xs.dedup.length)) ∧
    (inferredField (.arr xs) "uniqueItems" = some (.bool true) ↔
      xs.dedup.length = xs.length) := by
  obtain ⟨x, xs', rfl⟩ : ∃ y t, xs = y :: t := by
    cases xs with
    | nil => exact absurd rfl hne
    | cons a t => exact ⟨a, t, rfl⟩
  have hhom : ∀ y ∈ x :: xs', pyTypeName y = pyTypeName x := by
    rcases hkind with hk | hk <;>
      (intro y hy
       obtain ⟨_, rfl⟩ := hk y hy
       obtain ⟨_, rfl⟩ := hk x (List.mem_cons_self x xs')
       rfl)
  have hall : (x :: xs').all isNumberInstance = true := by
    rw [List.all_eq_true]
    intro y hy
    rcases hkind with hk | hk <;> obtain ⟨_, rfl⟩ := hk y hy <;> rfl
  have hitem : ∃ isch, infer_type x "" = .ok isch := by
    rcases hkind with hk | hk
    · obtain ⟨n, rfl⟩ := hk x (List.mem_cons_self x xs')
      exact ⟨.obj [("type", .str "integer")], by rw [infer_type]; rfl⟩
    · obtain ⟨q, rfl⟩ := hk x (List.mem_cons_self x xs')
      exact ⟨.obj [("type", .str "number")], by rw [infer_type]; rfl⟩
  obtain ⟨isch, hitem⟩ := hitem
  have hmain := infer_type_hom_array x xs' isch hhom hitem
  rw [if_pos hall] at hmain
  refine ⟨?_, ?_, ?_, ?_⟩ <;> simp [inferredField, hmain, getField]
  exact eq_comm

/-- C1 witness: `[1, 2, 2]` gets `minItems = 1`, `maxItems = 10` and
`uniqueItems = false`. -/
theorem infer_numeric_array_constraints_witness :
    inferredField (.arr [.int 1, .int 2, .int 2]) "minItems" =
      some (.int 1) ∧
    inferredField (.arr [.int 1, .int 2, .int 2]) "maxItems" =
      some (.int 10) ∧
    inferredField (.arr [.int 1, .int 2, .int 2]) "uniqueItems" =
      some (.bool false) := by
  have h := infer_numeric_array_constraints [.int 1, .int 2, .int 2]
    (by simp)
    (Or.inl (by
      intro y hy
      simp only [List.mem_cons, List.not_mem_nil, or_false] at hy
      rcases hy with rfl | rfl | rfl
      · exact ⟨1, rfl⟩
      · exact ⟨2, rfl⟩
      · exact ⟨2, rfl⟩))
  refine ⟨h.1, h.2.1, ?_⟩
  rw [h.2.2.1]
  decide

/-- C3 (counterexample): the all-boolean array `[true, false]` is a
non-empty homogeneous array of non-numeric JSON kind, yet — booleans
being `int` instances in the source — it receives `minItems`,
`maxItems` and `uniqueItems`, contradicting the claim that such arrays
carry no extra fields. -/
theorem infer_bool_array_gets_constraints :
    inferredField (.arr [.bool true, .bool false]) "minItems" =
      some (.int 1) ∧
    inferredField (.arr [.bool true, .bool false]) "maxItems" =
      some (.int 10) ∧
    inferredField (.arr [.bool true, .bool false]) "uniqueItems" =
      some (.bool true) := by
  decide

/-- C3 (amended): for every non-empty homogeneous array whose elements
are neither numbers nor booleans (e.g. all strings, or all objects),
the inferred schema is exactly `{type: array, items: <item schema>}`,
with no `minItems`, `maxItems` or `uniqueItems` attached.  (All-boolean
arrays are excluded: `isinstance(x, (int, float))` holds for Python
booleans, so they take the numeric-constraints branch.) -/
theorem infer_nonnumeric_hom_array_plain (x : JValue) (xs' : List JValue)
    (isch : JValue)
    (hhom : ∀ y ∈ x :: xs', pyTypeName y = pyTypeName x)
    (hnn : ∀ y ∈ x :: xs', isNumberInstance y = false)
    (hitem : infer_type x "" = .ok isch) :
    infer_type (.arr (x :: xs')) "" =
      .ok (.obj [("type", .str "array"), ("items", isch)]) ∧
    inferredField (.arr (x :: xs')) "minItems" = none ∧
    inferredField (.arr (x :: xs')) "maxItems" = none ∧
    inferredField (.arr (x :: xs')) "uniqueItems" = none := by
  have hall : (x :: xs').all isNumberInstance = false := by
    cases hb : (x :: xs').all isNumberInstance with
    | false => rfl
    | true =>
        have h1 := (List.all_eq_true.mp hb) x (List.mem_cons_self x xs')
        rw [hnn x (List.mem_cons_self x xs')] at h1
        cases h1
  have hmain := infer_type_hom_array x xs' isch hhom hitem
  rw [if_neg (by rw [hall]; exact Bool.false_ne_true)] at hmain
  refine ⟨hmain, ?_, ?_, ?_⟩ <;> simp [inferredField, hmain, getField]

/-- C3 witness: the all-string array `["a", "b"]`. -/
theorem infer_nonnumeric_hom_array_plain_witness :
    infer_type (.arr [.str "a", .str "b"]) "" =
      .ok (.obj [("type", .str "array"),
                 ("items", .obj [("type", .str "string")])]) ∧
    inferredField (.arr [.str "a", .str "b"]) "minItems" = none ∧
    inferredField (.arr [.str "a", .str "b"]) "maxItems" = none ∧
    inferredField (.arr [.str "a", .str "b"]) "uniqueItems" = none :=
  infer_nonnumeric_hom_array_plain (.str "a") [.str "b"]
    (.obj [("type", .str "string")]) (by decide) (by decide) (by decide)

/-- C6: for every array whose elements span more than one distinct
runtime kind, the inferred schema is `{type: array, items: {oneOf:
[...]}}` with one `{type: T}` alternative per element, in element
order, repeated once per element (not deduplicated), and no
`minItems` / `maxItems` / `uniqueItems` fields. -/
theorem infer_mixed_array_oneof (xs : List JValue) (fn : String)
    (hhet : ∃ a ∈ xs, ∃ b ∈ xs, pyTypeName a ≠ pyTypeName b) :
    infer_type (.arr xs) fn =
      .ok (.obj [("type", .str "array"),
                 ("items", .obj [("oneOf",
                   .arr (xs.map (fun item =>
                     .obj [("type",
                            .str (_get_json_type (pyTypeName item)))])))])]) := by
  obtain ⟨a, ha, b, hb, hne⟩ := hhet
  obtain ⟨x, xs', rfl⟩ : ∃ y t, xs = y :: t := by
    cases xs with
    | nil => simp at ha
    | cons y t => exact ⟨y, t, rfl⟩
  have hgt : 1 < (((x :: xs').map pyTypeName).dedup).length :=
    one_lt_length_of_two_mem (List.mem_dedup.mpr (List.mem_map_of_mem _ ha))
      (List.mem_dedup.mpr (List.mem_map_of_mem _ hb)) hne
  rw [infer_type, if_pos hgt]
  rfl

/-- C6 witness: `[1, "a", 2]` yields three alternatives, duplicating
`integer`, with no constraint fields. -/
theorem infer_mixed_array_oneof_witness :
    infer_type (.arr [.int 1, .str "a", .int 2]) "f" =
      .ok (.obj [("type", .str "array"),
                 ("items", .obj [("oneOf",
                   .arr [.obj [("type", .str "integer")],
                         .obj [("type", .str "string")],
                         .obj [("type", .str "integer")]])])]) := by
  rw [infer_mixed_array_oneof [.int 1, .str "a", .int 2] "f" (by decide)]
  decide

/-- C8: the worked example — one extra expected property `b` also
listed in `required` yields exactly a `required_fields_mismatch`
record at the root (missing `["b"]`, extra `[]`) followed by a
`missing_property` record at path `"b"`, and `passed = false`. -/
theorem diff_required_and_missing_property_example :
    _compare_schemas
      (.obj [("type", .str "object"),
             ("properties", .obj [("a", .obj [("type", .str "integer")])]),
             ("required", .arr [.str "a"])])
      (.obj [("type", .str "object"),
             ("properties", .obj [("a", .obj [("type", .str "integer")]),
                                  ("b", .obj [("type", .str "string")])]),
             ("required", .arr [.str "a", .str "b"])]) =
    { passed := false,
      differences :=
        [[("path", .str ""), ("issue", .str "required_fields_mismatch"),
          ("missing", .arr [.str "b"]), ("extra", .arr [])],
         [("path", .str "b"), ("issue", .str "missing_property"),
          ("expected", .obj [("type", .str "string")])]] } := by
  simp [_compare_schemas, compare_recursive, compare_props, propsOf, reqList,
        getField, optJ, jKey, hasKey]

/-- C5 (counterexample): for two root-level array schemas where only
the expected `items` carries `oneOf`, the single emitted
`missing_mixed_types` record has path `".items"` — with a leading dot,
because the source writes `f"{path}.items"` unconditionally — and not
the claimed `"items"`. -/
theorem missing_mixed_types_root_path_counterexample :
    _compare_schemas
      (.obj [("type", .str "array"), ("items", .obj [])])
      (.obj [("type", .str "array"),
             ("items", .obj [("oneOf", .arr [.obj [("type", .str "string")]])])]) =
    { passed := false,
      differences :=
        [[("path", .str ".items"), ("issue", .str "missing_mixed_types"),
          ("expected", .arr [.obj [("type", .str "string")]])]] } ∧
    ((_compare_schemas
      (.obj [("type", .str "array"), ("items", .obj [])])
      (.obj [("type", .str "array"),
             ("items", .obj [("oneOf", .arr [.obj [("type", .str "string")]])])])).differences.map
        (fun r => getField r "path")) ≠ [some (.str "items")] := by
  have h : _compare_schemas
      (.obj [("type", .str "array"), ("items", .obj [])])
      (.obj [("type", .str "array"),
             ("items", .obj [("oneOf", .arr [.obj [("type", .str "string")]])])]) =
    { passed := false,
      differences :=
        [[("path", .str ".items"), ("issue", .str "missing_mixed_types"),
          ("expected", .arr [.obj [("type", .str "string")]])]] } := by
    simp [_compare_schemas, compare_recursive, compare_props, propsOf, reqList,
          getField, optJ, jKey, hasKey]
  refine ⟨h, ?_⟩
  rw [h]
  decide

/-- C5 (amended): a `missing_mixed_types` record is emitted with path
`path + ".items"` (the source appends the dot unconditionally), so at
the root the record's path is `".items"`, with a leading dot; property
paths, by contrast, are dot-joined without a leading dot. -/
theorem missing_mixed_types_record_appends_dot_items
    (fi fe : List (String × JValue)) (p : String) (ei alts : JValue)
    (hty : getField fe "type" = some (.str "array"))
    (hitems : getField fe "items" = some ei)
    (honeof : jKey ei "oneOf" = some alts)
    (hinf : hasKey ((getField fi "items").getD (.obj [])) "oneOf" = false) :
    [("path", .str (p ++ ".items")), ("issue", .str "missing_mixed_types"),
     ("expected", alts)] ∈ compare_recursive (.obj fi) (.obj fe) p := by
  rw [compare_recursive]
  simp [hty, hitems, honeof, hinf, List.mem_append]

/-- C5 witness: the same pair at the root (`p = ""`), where the record
path evaluates to `".items"`. -/
theorem missing_mixed_types_record_appends_dot_items_witness :
    [("path", JValue.str ".items"), ("issue", JValue.str "missing_mixed_types"),
     ("expected", JValue.arr [JValue.obj [("type", JValue.str "string")]])] ∈
      compare_recursive
        (.obj [("type", .str "array"), ("items", .obj [])])
        (.obj [("type", .str "array"),
               ("items", .obj [("oneOf", .arr [.obj [("type", .str "string")]])])])
        "" := by
  have h := missing_mixed_types_record_appends_dot_items
    [("type", .str "array"), ("items", .obj [])]
    [("type", .str "array"),
     ("items", .obj [("oneOf", .arr [.obj [("type", .str "string")]])])]
    "" (.obj [("oneOf", .arr [.obj [("type", .str "string")]])])
    (.arr [.obj [("type", .str "string")]])
    (by decide) (by decide) (by decide) (by decide)
  simpa using h

theorem list_contains_self {l : List JValue} {x : JValue} (hx : x ∈ l) :
    l.contains x = true := by
  induction l with
  | nil => cases hx
  | cons a t ih =>
      rcases List.mem_cons.mp hx with rfl | h
      · simp [List.contains_cons]
      · simp only [List.contains_cons, ih h, Bool.or_true]

theorem all_contains_self (l : List JValue) :
    l.all (fun x => l.contains x) = true :=
  List.all_eq_true.mpr (fun x hx => list_contains_self hx)

theorem ValidProps_mem {pfs : List (String × JValue)}
    (h : ValidProps pfs = true) {kv : String × JValue} (hm : kv ∈ pfs) :
    ValidNode kv.2 = true := by
  induction pfs with
  | nil => cases hm
  | cons a t ih =>
      obtain ⟨k2, v2⟩ := a
      rw [ValidProps] at h
      rcases (Bool.and_eq_true _ _).mp h with ⟨h1, h2⟩
      rcases List.mem_cons.mp hm with rfl | hm2
      · exact h1
      · exact ih h2 hm2

theorem ValidNode_props {fs : List (String × JValue)}
    (h : ValidNode (.obj fs) = true) : ValidProps (propsOf fs) = true := by
  rw [ValidNode] at h
  simp only [Bool.and_eq_true] at h
  obtain ⟨⟨⟨_, _⟩, h3⟩, _⟩ := h
  unfold propsOf
  cases hp : getField fs "properties" with
  | none => rw [ValidProps]
  | some v =>
      rw [hp] at h3
      cases v <;> simp at h3
      exact h3

theorem compare_props_self (ip : List (String × JValue)) (p : String)
    (h : ∀ k v, getField ip k = some v → ∀ p2, compare_recursive v v p2 = []) :
    ∀ keys, compare_props ip ip keys p = [] := by
  intro keys
  induction keys with
  | nil => rw [compare_props]
  | cons k ks ih =>
      rw [compare_props]
      cases hk : getField ip k with
      | none => simp [hk, ih]
      | some v => simp [hk, h k v hk, ih]

theorem compare_recursive_self_aux :
    ∀ n : Nat, ∀ s : JValue, sizeOf s ≤ n → ValidNode s = true →
      ∀ p, compare_recursive s s p = [] := by
  intro n
  induction n with
  | zero =>
      intro s hs _ _
      have := jval_sizeOf_pos s
      omega
  | succ n ih =>
      intro s hs hv p
      cases s with
      | null => rw [compare_recursive.eq_def]
      | bool b => rw [compare_recursive.eq_def]
      | int m => rw [compare_recursive.eq_def]
      | float q => rw [compare_recursive.eq_def]
      | str t => rw [compare_recursive.eq_def]
      | arr xs => rw [compare_recursive.eq_def]
      | unsupported t => rw [compare_recursive.eq_def]
      | obj fs =>
          have hd5 : ∀ keys, compare_props (propsOf fs) (propsOf fs) keys p = [] := by
            apply compare_props_self
            intro k v hkv p2
            have hmem := getField_mem hkv
            have hvv : ValidNode v = true :=
              ValidProps_mem (ValidNode_props hv) hmem
            have hs1 : sizeOf v ≤ n := by
              have a1 := getField_sizeOf hkv
              have a2 := propsOf_sizeOf fs
              simp_arith at hs a2
              omega
            exact ih v hs1 hvv p2
          rw [compare_recursive]
          simp only [List.append_eq_nil]
          refine ⟨⟨⟨⟨⟨?_, ?_⟩, ?_⟩, ?_⟩, hd5 _⟩, ?_⟩
          · simp
          · split
            · cases hf : getField fs "format" with
              | none => rfl
              | some efmt => simp [hf]
            · rfl
          · have hc : ∀ c : String,
                (match getField fs c, getField fs c with
                 | some ev, none =>
                     some [("path", JValue.str p),
                           ("issue", JValue.str "missing_array_constraint"),
                           ("constraint", JValue.str c), ("expected", ev)]
                 | _, _ => none) = none := by
              intro c
              cases getField fs c <;> rfl
            split
            · simp [List.filterMap_cons, hc]
            · rfl
          · rw [if_pos]
            rw [all_contains_self (reqList fs)]
            rfl
          · split
            · cases hi2 : getField fs "items" with
              | none => rfl
              | some ei =>
                  cases ho : jKey ei "oneOf" with
                  | none => simp [ho]
                  | some alts => simp [ho, hasKey_eq_jKey_isSome]
            · rfl

/-- C4: comparing any valid Schema Node with itself yields
`passed = true` and an empty difference list. -/
theorem diff_self_passes (s : JValue) (hv : ValidNode s = true) :
    _compare_schemas s s = { passed := true, differences := [] } := by
  have h := compare_recursive_self_aux (sizeOf s) s (le_refl _) hv
  simp [_compare_schemas, h ""]

/-- C4 witness: a concrete valid schema node compared with itself. -/
theorem diff_self_passes_witness :
    ValidNode (.obj [("type", .str "object"),
        ("properties", .obj [("a", .obj [("type", .str "string"),
                                         ("format", .str "email")])]),
        ("required", .arr [.str "a"])]) = true ∧
    _compare_schemas
      (.obj [("type", .str "object"),
        ("properties", .obj [("a", .obj [("type", .str "string"),
                                         ("format", .str "email")])]),
        ("required", .arr [.str "a"])])
      (.obj [("type", .str "object"),
        ("properties", .obj [("a", .obj [("type", .str "string"),
                                         ("format", .str "email")])]),
        ("required", .arr [.str "a"])]) =
      { passed := true, differences := [] } := by
  have hv : ValidNode (.obj [("type", .str "object"),
      ("properties", .obj [("a", .obj [("type", .str "string"),
                                       ("format", .str "email")])]),
      ("required", .arr [.str "a"])]) = true := by
    rw [ValidNode]
    simp [getField, ValidProps, ValidNode]
  exact ⟨hv, diff_self_passes _ hv⟩
